import Mathlib

/-!
Shallow embedding of the core pipeline of `soundreaderfinal.py`:
the streaming decoder (`chunker`, `load_audio`), the inference chunk
dispatch (`total_chunks`), the event extractor (`subsample`,
`print_results`, `print_timestamps`), the batch reconciliation engine
(the summary counts, the fully-satisfied / four-way prompts and the
`urls_to_process` filter loop), the sticky-flag logic of
`download_audio`, and the URL-to-identifier normalization
(`replace("/shorts/", "/watch?v=")` followed by `split("watch?v=")[-1]`).

Python floats are modelled as rationals, numpy arrays as lists, the
ffmpeg subprocess by its emitted stream of 16-bit samples, `sys.exit`
and uncaught exceptions by explicit outcome values, and the interactive
`input()` calls by answer parameters together with a record of which
prompts were consulted.
-/

/-- Source line 20: `sample_rate = 32000`. -/
def sample_rate : Nat := 32000

/-- Source lines 622-623:
`def chunker(seq, size): return (seq[pos:pos + size] for pos in range(0, len(seq), size))`.
Python `range(0, n, k)` has `ceil(n / k)` elements `0, k, 2k, ...`
(for `k = 0` Python would raise; Lean's `n / 0 = 0` gives the empty range). -/
def chunker (seq : List α) (size : Nat) : List (List α) :=
  (List.range' 0 ((seq.length + size - 1) / size) size).map
    (fun pos => (seq.drop pos).take size)

/-- Source lines 626-654, `load_audio`: the ffmpeg subprocess emits a stream
of signed 16-bit mono samples (modelled as the input list `stream`); the
read loop collects `chunk_size`-sample chunks into `buffer`, each sample
normalized to `[-1, 1]` by dividing by `2^15`; if `buffer` is empty a
`RuntimeError` ("No audio could be extracted from the file") is raised,
otherwise the chunks are concatenated. -/
def load_audio (stream : List Int) (chunk_size : Nat := 960000) : Except String (List ℚ) :=
  let buffer := (chunker stream chunk_size).map (fun ch => ch.map (fun v => (v : ℚ) / 2 ^ 15))
  if buffer.isEmpty then
    Except.error "No audio could be extracted from the file"
  else
    Except.ok buffer.flatten

/-- Source lines 1152-1230, the per-identifier main loop restricted to the
decode step: `audio = load_audio(file, sr=sample_rate)` is called with no
surrounding `try`/`except`, so a decode error propagates and terminates
the whole run; this is modelled by the `Except` bind.  Each asset is
given by its decoded sample stream. -/
def runBatch (assets : List (List Int)) (chunk_size : Nat := 960000) : Except String (List (List ℚ)) :=
  match assets with
  | [] => Except.ok []
  | a :: rest => do
    let sig ← load_audio a chunk_size
    let others ← runBatch rest chunk_size
    Except.ok (sig :: others)

/-- Source lines 1197-1202:
`total_chunks = len(audio) // args.batch_size`;
`remaining_audio = len(audio) % args.batch_size`;
`if remaining_audio > 0 and remaining_audio >= sample_rate: total_chunks += 1`. -/
def total_chunks (n batch_size : Nat) : Nat :=
  let tc := n / batch_size
  let remaining_audio := n % batch_size
  if 0 < remaining_audio ∧ sample_rate ≤ remaining_audio then tc + 1 else tc

/-- Source lines 1215-1217: the dispatch loop enumerates
`chunker(audio, args.batch_size)` and breaks as soon as
`idx >= total_chunks`, so the number of chunks submitted to the
classifier is the minimum of the chunk count and `total_chunks`. -/
def submittedFrames (audio : List ℚ) (batch_size : Nat) : Nat :=
  min (chunker audio batch_size).length (total_chunks audio.length batch_size)

/-- Maximum of a list of rationals (numpy `.max()` on a nonempty array;
`0` as the junk value for the empty array, on which numpy would raise). -/
def listMax : List ℚ → ℚ
  | [] => 0
  | x :: xs => xs.foldl max x

/-- Source lines 663-675, `subsample`: the first `len - len % scale_factor`
entries are reshaped into rows of `scale_factor` (numpy
`reshape(-1, scale_factor)`, modelled as the windows
`frame[i*P : i*P + P]` for `i < (len - len % P) / P`) and max-pooled per
row; if `len % scale_factor != 0` the residual tail is max-pooled on its
own and appended. -/
def subsample (frame : List ℚ) (scale_factor : Nat) : List ℚ :=
  let m := frame.length % scale_factor
  let subframe := frame.take (frame.length - m)
  let rows := (List.range (subframe.length / scale_factor)).map
    (fun i => (subframe.drop (i * scale_factor)).take scale_factor)
  let pooled := rows.map listMax
  if m ≠ 0 then
    pooled ++ [listMax (frame.drop (frame.length - m))]
  else
    pooled

/-- Python `int(...)` truncates toward zero. -/
def truncQ (q : ℚ) : Int :=
  if 0 ≤ q then ⌊q⌋ else ⌈q⌉

/-- Source lines 677-687, `print_results`: walks `top` in order; for each
index the score `int(scores[i] * 100)` is emitted together with the
timestamp `i * precision / 100 + offset` when `score >= threshold`,
and the loop breaks at the first index that fails the test.
`seconds_to_hms` is pure formatting and is left out; an emission is the
pair (timestamp in seconds, confidence percent). -/
def print_results (scores : List ℚ) (precision : Nat) (offset : ℚ) (top : List Nat) (threshold : Int) : List (ℚ × Int) :=
  match top with
  | [] => []
  | i :: rest =>
    let score := truncQ (scores.getD i 0 * 100)
    if threshold ≤ score then
      (((i * precision : Nat) : ℚ) / 100 + offset, score) :: print_results scores precision offset rest threshold
    else
      []

/-- Source lines 689-704, `print_timestamps`: selects the `focus_idx`
column, max-pools it with `subsample`, then
`argpartition(ss, -len(ss))[-len(ss):]` followed by `np.sort` is the
identity permutation `0, ..., len(ss) - 1` (modelled as `List.range`);
indices with pooled confidence `>= threshold / 100` are kept and handed
to `print_results`; an empty result is returned silently. -/
def print_timestamps (framewise_output : List (List ℚ)) (precision : Nat) (threshold : Int) (focus_idx : Nat) (offset : ℚ) : List (ℚ × Int) :=
  let focus := framewise_output.map (fun row => row.getD focus_idx 0)
  let subsampled_scores := subsample focus precision
  let sorted_confidence := List.range subsampled_scores.length
  let actual_threshold := (threshold : ℚ) / 100
  let filtered_indices := sorted_confidence.filter
    (fun i => actual_threshold ≤ subsampled_scores.getD i 0)
  print_results subsampled_scores precision offset filtered_indices threshold

/-- Answer to a plain yes/no prompt: `y`, or anything else. -/
inductive AnsYN
  | y
  | other
deriving DecidableEq

/-- Answer to the four-way batch-reconciliation prompt (Y/N/A/E, with
`other` for any invalid input). -/
inductive Ans4
  | y
  | n
  | a
  | e
  | other
deriving DecidableEq

/-- The Python variable `process_logged_missing`, which ranges over
`None`, `False`, `True` and the string `"all"`. -/
inductive PLM
  | none
  | no
  | yes
  | all
deriving DecidableEq

/-- Python truthiness of `process_logged_missing`: `not None` and
`not False` are `True`; `not True` and `not "all"` are `False`. -/
def plmFalsy : PLM → Bool
  | PLM.none => true
  | PLM.no => true
  | PLM.yes => false
  | PLM.all => false

/-- Which interactive batch-level prompt was issued. -/
inductive PromptKind
  | rerunAll
  | fourWay
deriving DecidableEq

/-- How the reconciliation step ends: `exitError` models `sys.exit(1)`
(no identifiers found), `exitZero` models `sys.exit(0)`, `exitUser`
models `exit()` after choice E, and `proceed` carries the final
`urls_to_process` list. -/
inductive Outcome
  | exitError
  | exitZero
  | exitUser
  | proceed (toProcess : List Nat)
deriving DecidableEq

/-- Result of the reconciliation step: the outcome plus the list of
prompts that were issued, in order. -/
structure ReconOut where
  outcome : Outcome
  prompts : List PromptKind
deriving DecidableEq

/-- Source lines 869-888 (and the identical 997-1016, 1112-1131), the
body of the `urls_to_process` filter loop for one identifier:
`if process_logged_missing == "all"`, `elif process_logged_missing ==
True and log_entry_exists and not file_exists and
logged_but_missing_files > 0`, `elif not process_logged_missing and not
log_entry_exists`, `elif not log_entry_exists and file_exists`. -/
def selectForProcessing (plm : PLM) (logged_but_missing_files : Nat) (log_entry_exists file_exists : Bool) : Bool :=
  if plm = PLM.all then true
  else if plm = PLM.yes ∧ log_entry_exists = true ∧ file_exists = false ∧ 0 < logged_but_missing_files then true
  else if plmFalsy plm = true ∧ log_entry_exists = false then true
  else if log_entry_exists = false ∧ file_exists = true then true
  else false

/-- The whole `for url in urls:` filter loop (source lines 869-888):
appends, in order, every url whose identifier passes
`selectForProcessing`.  Identifiers are modelled as naturals; `logged`
and `cached` are the membership tests against `log_precheck_results`
and `file_precheck_results`. -/
def selectLoop (ids : List Nat) (logged cached : Nat → Bool) (plm : PLM) (logged_but_missing_files : Nat) : List Nat :=
  ids.filter (fun u => selectForProcessing plm logged_but_missing_files (logged u) (cached u))

/-- Source lines 782-891 (txt branch; lines 895-1019 and 1023-1134 are
verbatim copies for the playlist and channel branches), the batch
reconciliation step.  `log_precheck_results` and
`file_precheck_results` are dicts keyed by distinct identifiers of the
batch, so their sizes are counts over `ids.dedup`; `ids.length` is
`len(urls)` over the raw (possibly duplicated) url list.  The
fully-satisfied branch sets `urls_to_process = urls` and then still
runs the filter loop (with `process_logged_missing = None`), appending
to that list. -/
def reconcile (ids : List Nat) (logged cached : Nat → Bool) (rerunAns : AnsYN) (fourAns : Ans4) : ReconOut :=
  if ids.length = 0 then
    ⟨Outcome.exitError, []⟩
  else
    let loggedN := (ids.dedup.filter logged).length
    let cachedN := (ids.dedup.filter cached).length
    let logged_but_missing_files := (ids.dedup.filter (fun i => logged i && !cached i)).length
    let existing_but_not_logged := (ids.dedup.filter (fun i => cached i && !logged i)).length
    let videos_to_process := max (ids.length - loggedN) 0
    if loggedN = ids.length ∧ cachedN = ids.length then
      match rerunAns with
      | AnsYN.y =>
        ⟨Outcome.proceed (ids ++ selectLoop ids logged cached PLM.none logged_but_missing_files), [PromptKind.rerunAll]⟩
      | AnsYN.other => ⟨Outcome.exitZero, [PromptKind.rerunAll]⟩
    else if 0 < loggedN ∧ (0 < logged_but_missing_files ∨ 0 < existing_but_not_logged ∨ videos_to_process ≠ ids.length) then
      match fourAns with
      | Ans4.n =>
        if videos_to_process = 0 then ⟨Outcome.exitZero, [PromptKind.fourWay]⟩
        else ⟨Outcome.proceed (selectLoop ids logged cached PLM.no logged_but_missing_files), [PromptKind.fourWay]⟩
      | Ans4.y =>
        if loggedN = 0 ∨ logged_but_missing_files = 0 then ⟨Outcome.exitZero, [PromptKind.fourWay]⟩
        else ⟨Outcome.proceed (selectLoop ids logged cached PLM.yes logged_but_missing_files), [PromptKind.fourWay]⟩
      | Ans4.a =>
        ⟨Outcome.proceed (selectLoop ids logged cached PLM.all logged_but_missing_files), [PromptKind.fourWay]⟩
      | Ans4.e => ⟨Outcome.exitUser, [PromptKind.fourWay]⟩
      | Ans4.other =>
        ⟨Outcome.proceed (selectLoop ids logged cached PLM.no logged_but_missing_files), [PromptKind.fourWay]⟩
    else
      ⟨Outcome.proceed (selectLoop ids logged cached PLM.none logged_but_missing_files), []⟩

/-- The per-run sticky flags (source lines 222 and 1149). -/
structure Sticky where
  skip_all : Bool
  use_existing_all : Bool
deriving DecidableEq

/-- Initial sticky state: `use_existing_all = False` (line 222) and
`skip_all = False` (line 1149). -/
def initSticky : Sticky := ⟨false, false⟩

/-- A user answer to one of the prompts inside `download_audio`
(`y`, `n`, `a`, or any other input). -/
inductive UAns
  | y
  | n
  | a
  | other
deriving DecidableEq, Fintype

/-- How one `download_audio` call ends for the identifier at hand. -/
inductive DlResult
  | useExisting
  | skipped
  | downloaded
  | exitScript
deriving DecidableEq

/-- Result of one `download_audio` call: the disposition, the updated
sticky flags, and which prompts were actually issued. -/
structure DlOut where
  result : DlResult
  st : Sticky
  promptedReuse : Bool
  promptedRerun : Bool
  promptedRedownload : Bool
deriving DecidableEq

/-- Source lines 320-410 of `download_audio`, the control flow after the
exists-but-not-logged block: Step 3 (file exists and inference logged:
auto-skip under `skip_all`, suppress the prompt on a deliberate full
batch re-run, otherwise ask and handle A/N, falling through to the
existing file on Y or invalid input), the missing-but-logged
re-download question, and the final download. -/
def afterReuse (st : Sticky) (existingFile : Option String) (processed : Bool)
    (processing_batch fullRerun auto_redownload : Bool) (rerunAns redlAns : UAns)
    (pReuse : Bool) : DlOut :=
  if existingFile.isSome then
    if processed then
      if st.skip_all then ⟨DlResult.skipped, st, pReuse, false, false⟩
      else if processing_batch && fullRerun then ⟨DlResult.useExisting, st, pReuse, false, false⟩
      else
        match rerunAns with
        | UAns.a => ⟨DlResult.skipped, { st with skip_all := true }, pReuse, true, false⟩
        | UAns.n => ⟨DlResult.skipped, st, pReuse, true, false⟩
        | _ => ⟨DlResult.useExisting, st, pReuse, true, false⟩
    else ⟨DlResult.useExisting, st, pReuse, false, false⟩
  else
    if processed then
      if auto_redownload then ⟨DlResult.downloaded, st, pReuse, false, false⟩
      else
        match redlAns with
        | UAns.y => ⟨DlResult.downloaded, st, pReuse, false, true⟩
        | _ =>
          if processing_batch then ⟨DlResult.skipped, st, pReuse, false, true⟩
          else ⟨DlResult.exitScript, st, pReuse, false, true⟩
    else ⟨DlResult.downloaded, st, pReuse, false, false⟩

/-- Source lines 225-410, `download_audio`, starting from the sticky-flag
logic (metadata retrieval and the file-system scan are modelled by the
`existingFile` and `processed*` inputs).  Step 2.1 (lines 294-318):
file exists but is not logged — reuse silently under
`use_existing_all`, otherwise prompt (A sets the flag and reuses, Y
reuses, N deletes the file and falls through to download, any other
input falls through with the file kept). -/
def download_audio (st : Sticky) (existingFile : Option String)
    (processed_farts processed_burps : Bool)
    (processing_batch fullRerun auto_redownload : Bool)
    (reuseAns rerunAns redlAns : UAns) : DlOut :=
  let processed := processed_farts || processed_burps
  if existingFile.isSome && !processed then
    if st.use_existing_all then ⟨DlResult.useExisting, st, false, false, false⟩
    else
      match reuseAns with
      | UAns.a => ⟨DlResult.useExisting, { st with use_existing_all := true }, true, false, false⟩
      | UAns.y => ⟨DlResult.useExisting, st, true, false, false⟩
      | UAns.n => afterReuse st Option.none processed processing_batch fullRerun auto_redownload rerunAns redlAns true
      | UAns.other => afterReuse st existingFile processed processing_batch fullRerun auto_redownload rerunAns redlAns true
  else afterReuse st existingFile processed processing_batch fullRerun auto_redownload rerunAns redlAns false

/-- Python `str.replace(pat, repl)` on character lists: replaces every
non-overlapping occurrence of `pat` left to right.  (The source only
calls it with the nonempty pattern `"/shorts/"`; for an empty pattern
this model is the identity.) -/
def replaceAll (pat repl : List Char) : List Char → List Char
  | [] => []
  | c :: rest =>
    if pat.isPrefixOf (c :: rest) && !pat.isEmpty then
      repl ++ replaceAll pat repl (List.drop (pat.length - 1) rest)
    else
      c :: replaceAll pat repl rest
termination_by l => l.length
decreasing_by
  · simp only [List.length_drop, List.length_cons]
    omega
  · simp only [List.length_cons]
    omega

/-- Python `str.split(sep)` on character lists for a nonempty separator:
the list of pieces between non-overlapping occurrences of `sep`, left
to right.  (The source only calls it with `"watch?v="`; for an empty
separator, on which Python raises, this model returns `[l]`.) -/
def splitOnSeq (sep : List Char) : List Char → List (List Char)
  | [] => [[]]
  | c :: rest =>
    if sep.isPrefixOf (c :: rest) && !sep.isEmpty then
      [] :: splitOnSeq sep (List.drop (sep.length - 1) rest)
    else
      match splitOnSeq sep rest with
      | [] => [[c]]
      | p :: ps => (c :: p) :: ps
termination_by l => l.length
decreasing_by
  · simp only [List.length_drop, List.length_cons]
    omega
  · simp only [List.length_cons]
    omega

/-- Whether `pat` occurs as a contiguous subsequence of `l` (Python
`pat in l` for strings). -/
def containsSeq (pat : List Char) : List Char → Bool
  | [] => pat.isEmpty
  | c :: rest => pat.isPrefixOf (c :: rest) || containsSeq pat rest

/-- Whether an occurrence of `pat` starts at some position inside `a`
when the text continues with `t` after `a`. -/
def startsMatchIn (pat : List Char) : List Char → List Char → Bool
  | [], _ => false
  | c :: rest, t => pat.isPrefixOf (c :: rest ++ t) || startsMatchIn pat rest t

/-- The literal `"/shorts/"` (source lines 787, 900, 1030, 1156). -/
def shortsPat : List Char := ['/', 's', 'h', 'o', 'r', 't', 's', '/']

/-- The literal `"/watch?v="` (replacement string at the same lines). -/
def watchRepl : List Char := ['/', 'w', 'a', 't', 'c', 'h', '?', 'v', '=']

/-- The literal `"watch?v="` (split separator, source lines 870, 998,
1113, 1157). -/
def watchSep : List Char := ['w', 'a', 't', 'c', 'h', '?', 'v', '=']

/-- Source lines 1156-1157 (and 786-790 plus 870 for the txt branch):
`original_youtube_url = file.replace("/shorts/", "/watch?v=")` followed
by `video_id = original_youtube_url.split("watch?v=")[-1]`. -/
def extractVideoId (url : List Char) : List Char :=
  (splitOnSeq watchSep (replaceAll shortsPat watchRepl url)).getLastD []

/-- The characters of `"https://www.youtube.com"`. -/
def ytPre : List Char :=
  ['h', 't', 't', 'p', 's', ':', '/', '/', 'w', 'w', 'w', '.',
   'y', 'o', 'u', 't', 'u', 'b', 'e', '.', 'c', 'o', 'm']

/-- A YouTube Shorts URL for the video id `v`. -/
def shortsURL (v : List Char) : List Char := ytPre ++ shortsPat ++ v

/-- The canonical watch URL for the video id `v`. -/
def watchURL (v : List Char) : List Char := ytPre ++ watchRepl ++ v

/-- The characters of `"https://youtu.be/abc123"`, a youtu.be short link. -/
def ytbeExample : List Char :=
  ['h', 't', 't', 'p', 's', ':', '/', '/',
   'y', 'o', 'u', 't', 'u', '.', 'b', 'e', '/', 'a', 'b', 'c', '1', '2', '3']

/-! ### Helper lemmas about `chunker` and ceiling division -/

theorem ceil_div_eq (b n : Nat) (hb : 0 < b) :
    (n + b - 1) / b = n / b + (if n % b = 0 then 0 else 1) := by
  obtain ⟨q, r, hr, rfl⟩ : ∃ q r, r < b ∧ b * q + r = n :=
    ⟨n / b, n % b, Nat.mod_lt n hb, Nat.div_add_mod n b⟩
  by_cases hr0 : r = 0
  · subst hr0
    have h1 : b * q + 0 + b - 1 = b * q + (b - 1) := by omega
    rw [h1, Nat.mul_add_div hb, Nat.mul_add_div hb, Nat.mul_add_mod]
    simp [Nat.div_eq_of_lt (show b - 1 < b by omega)]
  · have h1 : b * q + r + b - 1 = b * q + (r + b - 1) := by omega
    rw [h1, Nat.mul_add_div hb, Nat.mul_add_div hb, Nat.mul_add_mod]
    have h2 : (r + b - 1) / b = 1 :=
      Nat.div_eq_of_lt_le (by omega) (by omega)
    have h3 : r / b = 0 := Nat.div_eq_of_lt hr
    have h4 : r % b = r := Nat.mod_eq_of_lt hr
    simp [h2, h3, h4, hr0]

theorem chunker_nil {α : Type _} (k : Nat) : chunker ([] : List α) k = [] := by
  rcases Nat.eq_zero_or_pos k with hk | hk
  · subst hk; simp [chunker]
  · have h0 : (k - 1) / k = 0 := Nat.div_eq_of_lt (by omega)
    simp [chunker, h0]

theorem getLast?_cons_ne {β : Type _} (a : β) (l : List β) (h : l ≠ []) :
    (a :: l).getLast? = l.getLast? := by
  cases l with
  | nil => exact absurd rfl h
  | cons b bs => simp [List.getLast?_cons_cons]

theorem range'_shift (s n step : Nat) :
    List.range' (s + step) n step = (List.range' s n step).map (· + step) := by
  induction n generalizing s with
  | zero => simp
  | succ n ih =>
    rw [List.range'_succ, List.range'_succ, List.map_cons, ← ih]

theorem chunker_cons {α : Type _} (k : Nat) (hk : 0 < k) (l : List α) (hl : l ≠ []) :
    chunker l k = l.take k :: chunker (l.drop k) k := by
  have hlen : 0 < l.length := List.length_pos.mpr hl
  have hm : (l.length + k - 1) / k = ((l.length - k) + k - 1) / k + 1 := by
    rcases le_or_lt k l.length with h | h
    · have h1 : l.length + k - 1 = ((l.length - k) + k - 1) + k := by omega
      rw [h1, Nat.add_div_right _ hk]
    · have h1 : l.length - k = 0 := by omega
      rw [h1]
      have h2 : (l.length + k - 1) / k = 1 :=
        Nat.div_eq_of_lt_le (by omega) (by omega)
      have h3 : (0 + k - 1) / k = 0 := Nat.div_eq_of_lt (by omega)
      rw [h2, h3]
  unfold chunker
  rw [List.length_drop, hm, List.range'_succ, List.map_cons, List.drop_zero]
  congr 1
  rw [range'_shift 0 (((l.length - k) + k - 1) / k) k, List.map_map]
  apply List.map_congr_left
  intro a _
  simp only [Function.comp_apply]
  rw [List.drop_drop, Nat.add_comm]

theorem chunker_flatten_aux {α : Type _} (k : Nat) (hk : 0 < k) :
    ∀ (n : Nat) (l : List α), l.length ≤ n → (chunker l k).flatten = l := by
  intro n
  induction n with
  | zero =>
    intro l hl
    have : l = [] := List.length_eq_zero.mp (Nat.le_zero.mp hl)
    subst this
    rw [chunker_nil]
    rfl
  | succ n ih =>
    intro l hl
    rcases eq_or_ne l [] with h | h
    · subst h; rw [chunker_nil]; rfl
    · rw [chunker_cons k hk l h, List.flatten_cons,
        ih (l.drop k) (by simp only [List.length_drop]; omega)]
      exact List.take_append_drop k l

theorem chunker_dropLast_aux {α : Type _} (k : Nat) (hk : 0 < k) :
    ∀ (n : Nat) (l : List α), l.length ≤ n →
      ∀ c ∈ (chunker l k).dropLast, c.length = k := by
  intro n
  induction n with
  | zero =>
    intro l hl c hc
    have : l = [] := List.length_eq_zero.mp (Nat.le_zero.mp hl)
    subst this
    rw [chunker_nil] at hc
    simp at hc
  | succ n ih =>
    intro l hl c hc
    rcases eq_or_ne l [] with h | h
    · subst h; rw [chunker_nil] at hc; simp at hc
    · rw [chunker_cons k hk l h] at hc
      rcases eq_or_ne (l.drop k) [] with hd | hd
      · rw [hd, chunker_nil] at hc
        simp at hc
      · have hne : chunker (l.drop k) k ≠ [] := by
          rw [chunker_cons k hk _ hd]
          simp
        rw [List.dropLast_cons_of_ne_nil hne] at hc
        rcases List.mem_cons.mp hc with hc | hc
        · subst hc
          have hklen : k ≤ l.length := by
            by_contra hcon
            exact hd (List.drop_eq_nil_of_le (by omega))
          simp [List.length_take, Nat.min_eq_left hklen]
        · exact ih (l.drop k) (by simp only [List.length_drop]; omega) c hc

theorem chunker_getLast_aux {α : Type _} (k : Nat) (hk : 0 < k) :
    ∀ (n : Nat) (l : List α), l.length ≤ n →
      ∀ c, (chunker l k).getLast? = some c → c ≠ [] ∧ c.length ≤ k := by
  intro n
  induction n with
  | zero =>
    intro l hl c hc
    have : l = [] := List.length_eq_zero.mp (Nat.le_zero.mp hl)
    subst this
    rw [chunker_nil] at hc
    simp at hc
  | succ n ih =>
    intro l hl c hc
    rcases eq_or_ne l [] with h | h
    · subst h; rw [chunker_nil] at hc; simp at hc
    · rw [chunker_cons k hk l h] at hc
      rcases eq_or_ne (l.drop k) [] with hd | hd
      · rw [hd, chunker_nil] at hc
        simp only [List.getLast?_singleton, Option.some.injEq] at hc
        subst hc
        constructor
        · intro hcon
          have : l.length ≤ 0 := by
            have := congrArg List.length hcon
            simp only [List.length_take, List.length_nil] at this
            omega
          exact h (List.length_eq_zero.mp (Nat.le_zero.mp this))
        · simp [List.length_take]
      · have hne : chunker (l.drop k) k ≠ [] := by
          rw [chunker_cons k hk _ hd]
          simp
        rw [getLast?_cons_ne _ _ hne] at hc
        exact ih (l.drop k) (by simp only [List.length_drop]; omega) c hc

/-! ### Claims C10, C6, C3 -/

/-- C10: for every signal `s` and every chunk size `k > 0`, `chunker`
yields a finite sequence of chunks whose concatenation in order equals
`s` exactly, every chunk except possibly the last has exactly `k`
samples, and the last chunk (when one exists) is non-empty with at most
`k` samples — chunking loses no samples and duplicates none. -/
theorem claim_C10 {α : Type _} (s : List α) (k : Nat) (hk : 0 < k) :
    (chunker s k).flatten = s ∧
    (∀ c ∈ (chunker s k).dropLast, c.length = k) ∧
    (∀ c, (chunker s k).getLast? = some c → c ≠ [] ∧ c.length ≤ k) :=
  ⟨chunker_flatten_aux k hk s.length s le_rfl,
   chunker_dropLast_aux k hk s.length s le_rfl,
   chunker_getLast_aux k hk s.length s le_rfl⟩

/-- Witness for C10 at `s = [1, 2, 3]`, `k = 2`. -/
theorem claim_C10_witness :
    (0 < 2) ∧
    ((chunker [1, 2, 3] 2).flatten = [1, 2, 3] ∧
     (∀ c ∈ (chunker [1, 2, 3] 2).dropLast, c.length = 2) ∧
     (∀ c, (chunker [1, 2, 3] 2).getLast? = some c → c ≠ [] ∧ c.length ≤ 2)) :=
  ⟨by decide, claim_C10 ([1, 2, 3] : List Nat) 2 (by decide)⟩

/-- C6: for every decoded signal of `n` samples and every
`batch_size > 0`, the number of frames submitted to the classifier is
`n / batch_size`, plus one extra frame exactly when the final partial
frame is nonempty and at least `sample_rate` samples long; a shorter
final partial frame is dropped. -/
theorem claim_C6 (audio : List ℚ) (batch_size : Nat) (hb : 0 < batch_size) :
    submittedFrames audio batch_size =
      audio.length / batch_size +
        (if 0 < audio.length % batch_size ∧ sample_rate ≤ audio.length % batch_size
         then 1 else 0) := by
  have hlen : (chunker audio batch_size).length = (audio.length + batch_size - 1) / batch_size := by
    simp [chunker]
  have hceil := ceil_div_eq batch_size audio.length hb
  simp only [submittedFrames, total_chunks, hlen, hceil]
  by_cases h1 : 0 < audio.length % batch_size ∧ sample_rate ≤ audio.length % batch_size
  · rw [if_pos h1, if_pos h1, if_neg (show ¬audio.length % batch_size = 0 by omega)]
    omega
  · rw [if_neg h1, if_neg h1]
    by_cases h0 : audio.length % batch_size = 0
    · rw [if_pos h0]
      omega
    · rw [if_neg h0]
      omega

/-- Witness for C6 at a three-sample signal and `batch_size = 2`. -/
theorem claim_C6_witness :
    (0 < 2) ∧
    submittedFrames [1, 2, 3] 2 =
      ([1, 2, 3] : List ℚ).length / 2 +
        (if 0 < ([1, 2, 3] : List ℚ).length % 2 ∧ sample_rate ≤ ([1, 2, 3] : List ℚ).length % 2
         then 1 else 0) :=
  ⟨by decide, claim_C6 [1, 2, 3] 2 (by decide)⟩

/-- C3 counterexample: the claim says that in batch mode a zero-sample
decode lets the run continue to the next identifier; in the code the
`RuntimeError` from `load_audio` is never caught, so a batch whose
first asset decodes to zero samples aborts with the error and the
second asset `[100]` is never processed. -/
theorem claim_C3_counterexample :
    runBatch [[], [100]] 960000 =
      Except.error "No audio could be extracted from the file" := by
  rfl

/-- C3 (amended): decoding an asset that produces zero samples raises a
decode error for that identifier (rather than returning an empty
signal) and that identifier is abandoned; the error is not handled
anywhere, so also in batch mode the run aborts and the remaining
identifiers are not processed. -/
theorem claim_C3 (rest : List (List Int)) (chunk_size : Nat) :
    load_audio [] chunk_size = Except.error "No audio could be extracted from the file" ∧
    runBatch ([] :: rest) chunk_size = Except.error "No audio could be extracted from the file" := by
  have h1 : load_audio ([] : List Int) chunk_size =
      Except.error "No audio could be extracted from the file" := by
    unfold load_audio
    rw [chunker_nil]
    rfl
  refine ⟨h1, ?_⟩
  unfold runBatch
  rw [h1]
  rfl

/-! ### Claims C1, C2, C9 (batch reconciliation) -/

/-- C2: for every non-empty batch of (distinct, as produced by the
resolver) identifiers in which every identifier is both logged and
cached, the reconciliation step asks exactly one yes/no re-run
question; answering `y` selects all extracted identifiers for
re-inference, and any other answer terminates the run cleanly with
`sys.exit(0)` and zero identifiers selected. -/
theorem claim_C2 (ids : List Nat) (logged cached : Nat → Bool) (fourAns : Ans4)
    (hne : ids ≠ []) (hnd : ids.Nodup)
    (hall : ∀ i ∈ ids, logged i = true ∧ cached i = true) :
    reconcile ids logged cached AnsYN.y fourAns =
      ⟨Outcome.proceed ids, [PromptKind.rerunAll]⟩ ∧
    reconcile ids logged cached AnsYN.other fourAns =
      ⟨Outcome.exitZero, [PromptKind.rerunAll]⟩ := by
  have hdedup : ids.dedup = ids := hnd.dedup
  have hlog : ids.dedup.filter logged = ids := by
    rw [hdedup]
    exact List.filter_eq_self.mpr (fun a ha => (hall a ha).1)
  have hcache : ids.dedup.filter cached = ids := by
    rw [hdedup]
    exact List.filter_eq_self.mpr (fun a ha => (hall a ha).2)
  have hlen0 : ¬ids.length = 0 := by
    simpa [List.length_eq_zero] using hne
  have hsel : selectLoop ids logged cached PLM.none
      ((ids.dedup.filter (fun i => logged i && !cached i)).length) = [] := by
    apply List.filter_eq_nil_iff.mpr
    intro a ha
    have h1 := (hall a ha).1
    simp [selectForProcessing, plmFalsy, h1]
  constructor
  · unfold reconcile
    rw [if_neg hlen0]
    simp only [hlog, hcache]
    rw [if_pos ⟨trivial, trivial⟩]
    simp only [hsel, List.append_nil]
  · unfold reconcile
    rw [if_neg hlen0]
    simp only [hlog, hcache]
    rw [if_pos ⟨trivial, trivial⟩]

/-- Witness for C2 at the batch `[0, 1]` with everything logged and
cached. -/
theorem claim_C2_witness :
    reconcile [0, 1] (fun _ => true) (fun _ => true) AnsYN.y Ans4.n =
      ⟨Outcome.proceed [0, 1], [PromptKind.rerunAll]⟩ ∧
    reconcile [0, 1] (fun _ => true) (fun _ => true) AnsYN.other Ans4.n =
      ⟨Outcome.exitZero, [PromptKind.rerunAll]⟩ :=
  claim_C2 [0, 1] (fun _ => true) (fun _ => true) Ans4.n
    (by decide) (by decide) (by decide)

/-- C9: when the four-way prompt is reached, choosing
`REDOWNLOAD_LOGGED_MISSING` (answer Y) while the count of
logged-but-missing identifiers is zero, and choosing
`SKIP_LOGGED_PROCESS_NEW` (answer N) while the count of identifiers
requiring download and processing is zero, both terminate the run
cleanly with `sys.exit(0)` before any identifier is processed. -/
theorem claim_C9 (ids : List Nat) (logged cached : Nat → Bool) (rerunAns : AnsYN)
    (hne : ¬ids.length = 0)
    (hnotfull : ¬((ids.dedup.filter logged).length = ids.length ∧
      (ids.dedup.filter cached).length = ids.length))
    (hguard : 0 < (ids.dedup.filter logged).length ∧
      (0 < (ids.dedup.filter (fun i => logged i && !cached i)).length ∨
       0 < (ids.dedup.filter (fun i => cached i && !logged i)).length ∨
       max (ids.length - (ids.dedup.filter logged).length) 0 ≠ ids.length)) :
    (max (ids.length - (ids.dedup.filter logged).length) 0 = 0 →
      reconcile ids logged cached rerunAns Ans4.n =
        ⟨Outcome.exitZero, [PromptKind.fourWay]⟩) ∧
    ((ids.dedup.filter (fun i => logged i && !cached i)).length = 0 →
      reconcile ids logged cached rerunAns Ans4.y =
        ⟨Outcome.exitZero, [PromptKind.fourWay]⟩) := by
  constructor
  · intro hvtp
    unfold reconcile
    rw [if_neg hne, if_neg hnotfull, if_pos hguard]
    rw [if_pos hvtp]
  · intro hlbm
    unfold reconcile
    rw [if_neg hne, if_neg hnotfull, if_pos hguard]
    rw [if_pos (Or.inr hlbm)]

/-- Witness for C9: a batch with everything logged but one file missing
(answer N with nothing new), and a batch with one unlogged cached file
(answer Y with nothing logged-but-missing). -/
theorem claim_C9_witness :
    reconcile [0, 1] (fun _ => true) (fun i => i == 0) AnsYN.y Ans4.n =
      ⟨Outcome.exitZero, [PromptKind.fourWay]⟩ ∧
    reconcile [0, 1] (fun i => i == 0) (fun _ => true) AnsYN.y Ans4.y =
      ⟨Outcome.exitZero, [PromptKind.fourWay]⟩ :=
  ⟨(claim_C9 [0, 1] (fun _ => true) (fun i => i == 0) AnsYN.y
      (by decide) (by decide) (by decide)).1 (by decide),
   (claim_C9 [0, 1] (fun i => i == 0) (fun _ => true) AnsYN.y
      (by decide) (by decide) (by decide)).2 (by decide)⟩

/-- C1 counterexample: in the batch `[0, 1]` with identifier `0` logged
but missing and identifier `1` neither logged nor cached, choosing
`REDOWNLOAD_LOGGED_MISSING` (answer Y to the four-way prompt) selects
only identifier `0`: the not-logged, not-cached identifier `1` is not
selected for processing, contradicting the claim that it receives
`DOWNLOAD_NEW` under every policy.  The second conjunct is the same
fact at the level of the per-identifier filter branch. -/
theorem claim_C1_counterexample :
    reconcile [0, 1] (fun i => i == 0) (fun _ => false) AnsYN.y Ans4.y =
      ⟨Outcome.proceed [0], [PromptKind.fourWay]⟩ ∧
    selectForProcessing PLM.yes 1 false false = false := by
  decide

/-- C1 (amended): an identifier that is not logged is always selected
for processing under `PROCESS_ALL`, `SKIP_LOGGED_PROCESS_NEW` and under
no policy — in particular a neither-logged-nor-cached identifier
receives `DOWNLOAD_NEW` under those three; under
`REDOWNLOAD_LOGGED_MISSING`, however, a not-logged identifier is
selected exactly when it is cached, so a neither-logged-nor-cached
identifier is excluded under that policy. -/
theorem claim_C1 (logged_but_missing_files : Nat) (cached : Bool) :
    selectForProcessing PLM.all logged_but_missing_files false cached = true ∧
    selectForProcessing PLM.no logged_but_missing_files false cached = true ∧
    selectForProcessing PLM.none logged_but_missing_files false cached = true ∧
    selectForProcessing PLM.yes logged_but_missing_files false cached = cached := by
  cases cached <;> simp [selectForProcessing, plmFalsy]

/-! ### Claim C8 (sticky flags) -/

set_option synthInstance.maxHeartbeats 2000000 in
set_option synthInstance.maxSize 4096 in
set_option maxHeartbeats 2000000 in
/-- C8: the sticky flags `skip_all` and `use_existing_all` each start
`false`; across one `download_audio` call each flag can only transition
from `false` to `true`, and does so only when the corresponding
"apply to all" answer is given (`a` to the reuse prompt for
`use_existing_all`, `a` to the re-run prompt for `skip_all`); once
`true`, `use_existing_all` auto-reuses a cached-but-unlogged asset
without issuing the reuse prompt, and `skip_all` auto-skips a
logged-and-cached identifier without issuing the re-run prompt. -/
theorem claim_C8 :
    initSticky.skip_all = false ∧ initSticky.use_existing_all = false ∧
    (∀ (st : Sticky) (existingFile : Option String)
       (pf pb batch fullRerun autoRedl : Bool) (a1 a2 a3 : UAns),
      ((download_audio st existingFile pf pb batch fullRerun autoRedl a1 a2 a3).st.skip_all = true →
        st.skip_all = true ∨ a2 = UAns.a) ∧
      ((download_audio st existingFile pf pb batch fullRerun autoRedl a1 a2 a3).st.use_existing_all = true →
        st.use_existing_all = true ∨ a1 = UAns.a) ∧
      (st.skip_all = true →
        (download_audio st existingFile pf pb batch fullRerun autoRedl a1 a2 a3).st.skip_all = true) ∧
      (st.use_existing_all = true →
        (download_audio st existingFile pf pb batch fullRerun autoRedl a1 a2 a3).st.use_existing_all = true) ∧
      (st.use_existing_all = true → existingFile.isSome = true → (pf || pb) = false →
        (download_audio st existingFile pf pb batch fullRerun autoRedl a1 a2 a3).promptedReuse = false ∧
        (download_audio st existingFile pf pb batch fullRerun autoRedl a1 a2 a3).result = DlResult.useExisting) ∧
      (st.skip_all = true → existingFile.isSome = true → (pf || pb) = true →
        (download_audio st existingFile pf pb batch fullRerun autoRedl a1 a2 a3).promptedRerun = false ∧
        (download_audio st existingFile pf pb batch fullRerun autoRedl a1 a2 a3).result = DlResult.skipped)) := by
  refine ⟨rfl, rfl, ?_⟩
  intro st existingFile pf pb batch fullRerun autoRedl a1 a2 a3
  obtain ⟨sa, ua⟩ := st
  cases existingFile with
  | none =>
    revert sa ua pf pb batch fullRerun autoRedl a1 a2 a3
    decide
  | some v =>
    have hv : ∀ (st : Sticky) (pf pb batch fullRerun autoRedl : Bool) (a1 a2 a3 : UAns),
        download_audio st (some v) pf pb batch fullRerun autoRedl a1 a2 a3 =
        download_audio st (some "x") pf pb batch fullRerun autoRedl a1 a2 a3 :=
      fun _ _ _ _ _ _ _ _ _ => rfl
    revert sa ua pf pb batch fullRerun autoRedl a1 a2 a3
    simp only [hv, Option.isSome_some]
    decide

/-- Witness for C8: with both flags set, an existing unlogged file is
reused with no reuse prompt. -/
theorem claim_C8_witness :
    ((⟨true, true⟩ : Sticky).use_existing_all = true ∧
     (some "a.m4a" : Option String).isSome = true ∧ (false || false) = false) ∧
    ((download_audio ⟨true, true⟩ (some "a.m4a") false false true false false
        UAns.n UAns.n UAns.n).promptedReuse = false ∧
     (download_audio ⟨true, true⟩ (some "a.m4a") false false true false false
        UAns.n UAns.n UAns.n).result = DlResult.useExisting) :=
  ⟨⟨rfl, rfl, rfl⟩,
   (claim_C8.2.2 ⟨true, true⟩ (some "a.m4a") false false true false false
      UAns.n UAns.n UAns.n).2.2.2.2.1 rfl rfl rfl⟩

/-! ### Claim C4 (pooling correctness) -/

theorem getLastD_append_singleton {β : Type _} (l : List β) (a d : β) :
    (l ++ [a]).getLastD d = a := by
  induction l generalizing d with
  | nil => rfl
  | cons x xs ih => rw [List.cons_append, List.getLastD_cons, ih]

theorem subsample_eq_rangeMap (frame : List ℚ) (P : Nat) (hP : 0 < P) :
    subsample frame P =
      (List.range ((frame.length + P - 1) / P)).map
        (fun i => listMax ((frame.drop (i * P)).take P)) := by
  have hqr : P * (frame.length / P) + frame.length % P = frame.length :=
    Nat.div_add_mod frame.length P
  have hrlt : frame.length % P < P := Nat.mod_lt _ hP
  have hsub : frame.length - frame.length % P = P * (frame.length / P) := by omega
  have hdiv : (frame.length - frame.length % P) / P = frame.length / P := by
    rw [hsub, Nat.mul_div_cancel_left _ hP]
  have hceil := ceil_div_eq P frame.length hP
  have hlen : (frame.take (frame.length - frame.length % P)).length =
      frame.length - frame.length % P := by
    rw [List.length_take]
    omega
  have hwin : ∀ i ∈ List.range (frame.length / P),
      listMax (((frame.take (frame.length - frame.length % P)).drop (i * P)).take P) =
      listMax ((frame.drop (i * P)).take P) := by
    intro i hi
    have hi' : i < frame.length / P := List.mem_range.mp hi
    have hiP : i * P + P ≤ frame.length - frame.length % P := by
      have h2 : (i + 1) * P ≤ (frame.length / P) * P := Nat.mul_le_mul_right P hi'
      rw [hsub, Nat.mul_comm P (frame.length / P)]
      calc i * P + P = (i + 1) * P := by ring
        _ ≤ (frame.length / P) * P := h2
    rw [List.drop_take, List.take_take,
      Nat.min_eq_left (by omega : P ≤ frame.length - frame.length % P - i * P)]
  by_cases hm : frame.length % P = 0
  · rw [hm] at hceil
    simp only [if_pos rfl, Nat.add_zero] at hceil
    unfold subsample
    rw [if_neg (by simp [hm])]
    rw [hlen, hdiv, hceil, List.map_map]
    exact List.map_congr_left (fun i hi => hwin i hi)
  · rw [if_neg hm] at hceil
    unfold subsample
    rw [if_pos (by simp [hm])]
    rw [hlen, hdiv, hceil, List.range_succ, List.map_append, List.map_map]
    congr 1
    · exact List.map_congr_left (fun i hi => hwin i hi)
    · simp only [List.map_cons, List.map_nil]
      congr 2
      rw [Nat.mul_comm, ← hsub]
      have hdroplen : (frame.drop (frame.length - frame.length % P)).length ≤ P := by
        rw [List.length_drop]
        omega
      rw [List.take_of_length_le hdroplen]

/-- C4: for every confidence column of length `L > 0` and every
precision `P > 0`, `subsample` produces exactly `ceil(L / P)` pooled
windows; each of the first `L / P` pooled values is the max of its `P`
consecutive column members, and when `L % P` is nonzero the final
pooled value is the max of the remaining `L % P` members. -/
theorem claim_C4 (frame : List ℚ) (P : Nat) (hP : 0 < P) (hL : 0 < frame.length) :
    (subsample frame P).length = (frame.length + P - 1) / P ∧
    (∀ i < frame.length / P,
      (subsample frame P).getD i 0 = listMax ((frame.drop (i * P)).take P)) ∧
    (frame.length % P ≠ 0 →
      (subsample frame P).getLastD 0 =
        listMax (frame.drop (frame.length - frame.length % P))) := by
  have hmaster := subsample_eq_rangeMap frame P hP
  have hfloor_le : frame.length / P ≤ (frame.length + P - 1) / P :=
    Nat.div_le_div_right (by omega)
  have hlen : (subsample frame P).length = (frame.length + P - 1) / P := by
    rw [hmaster, List.length_map, List.length_range]
  refine ⟨hlen, ?_, ?_⟩
  · intro i hi
    rw [hmaster]
    rw [List.getD_eq_getElem _ _ (by rw [List.length_map, List.length_range]; omega)]
    rw [List.getElem_map, List.getElem_range]
  · intro hm
    have hceil := ceil_div_eq P frame.length hP
    rw [if_neg hm] at hceil
    rw [hmaster, hceil, List.range_succ, List.map_append]
    simp only [List.map_cons, List.map_nil]
    rw [getLastD_append_singleton]
    have hqr : P * (frame.length / P) + frame.length % P = frame.length :=
      Nat.div_add_mod frame.length P
    have hrlt : frame.length % P < P := Nat.mod_lt _ hP
    have hsub : frame.length / P * P = frame.length - frame.length % P := by
      rw [Nat.mul_comm]
      omega
    rw [hsub]
    have hdroplen : (frame.drop (frame.length - frame.length % P)).length ≤ P := by
      rw [List.length_drop]
      omega
    rw [List.take_of_length_le hdroplen]

/-- Witness for C4 at the spec's scenario C column `[5, 95, 10, 80, 0]`
with precision 2. -/
theorem claim_C4_witness :
    ((0 < 2) ∧ 0 < ([5, 95, 10, 80, 0] : List ℚ).length) ∧
    ((subsample [5, 95, 10, 80, 0] 2).length =
        (([5, 95, 10, 80, 0] : List ℚ).length + 2 - 1) / 2 ∧
     (∀ i < ([5, 95, 10, 80, 0] : List ℚ).length / 2,
       (subsample [5, 95, 10, 80, 0] 2).getD i 0 =
         listMax ((([5, 95, 10, 80, 0] : List ℚ).drop (i * 2)).take 2)) ∧
     (([5, 95, 10, 80, 0] : List ℚ).length % 2 ≠ 0 →
       (subsample [5, 95, 10, 80, 0] 2).getLastD 0 =
         listMax (([5, 95, 10, 80, 0] : List ℚ).drop
           (([5, 95, 10, 80, 0] : List ℚ).length -
            ([5, 95, 10, 80, 0] : List ℚ).length % 2)))) :=
  ⟨⟨by decide, by decide⟩, claim_C4 [5, 95, 10, 80, 0] 2 (by decide) (by decide)⟩

/-! ### Claim C5 (event extraction monotonicity) -/

theorem truncQ_ge (t : Int) (q : ℚ) (h : (t : ℚ) / 100 ≤ q) : t ≤ truncQ (q * 100) := by
  have ht : (t : ℚ) ≤ q * 100 := by
    rw [div_le_iff₀ (by norm_num : (0 : ℚ) < 100)] at h
    exact h
  unfold truncQ
  by_cases hq : (0 : ℚ) ≤ q * 100
  · rw [if_pos hq]
    exact Int.le_floor.mpr ht
  · rw [if_neg hq]
    have h2 : (t : ℚ) ≤ ((⌈q * 100⌉ : Int) : ℚ) := le_trans ht (Int.le_ceil _)
    exact_mod_cast h2

theorem print_results_length_of_all_pass (scores : List ℚ) (precision : Nat) (offset : ℚ)
    (threshold : Int) (top : List Nat)
    (h : ∀ i ∈ top, (threshold : ℚ) / 100 ≤ scores.getD i 0) :
    (print_results scores precision offset top threshold).length = top.length := by
  induction top with
  | nil => rfl
  | cons i rest ih =>
    have hi := h i (List.mem_cons_self i rest)
    have hsc : threshold ≤ truncQ (scores.getD i 0 * 100) := truncQ_ge _ _ hi
    unfold print_results
    rw [if_pos hsc]
    simp only [List.length_cons]
    rw [ih (fun j hj => h j (List.mem_cons_of_mem _ hj))]

theorem filter_length_mono {β : Type _} (p q : β → Bool) (l : List β)
    (h : ∀ a ∈ l, q a = true → p a = true) :
    (l.filter q).length ≤ (l.filter p).length := by
  rw [← List.countP_eq_length_filter, ← List.countP_eq_length_filter]
  exact List.countP_mono_left h

theorem print_timestamps_length_eq (fw : List (List ℚ)) (precision : Nat) (t : Int)
    (focus_idx : Nat) (offset : ℚ) :
    (print_timestamps fw precision t focus_idx offset).length =
      ((List.range (subsample (fw.map (fun row => row.getD focus_idx 0)) precision).length).filter
        (fun i => decide ((t : ℚ) / 100 ≤
          (subsample (fw.map (fun row => row.getD focus_idx 0)) precision).getD i 0))).length := by
  unfold print_timestamps
  apply print_results_length_of_all_pass
  intro i hi
  have h2 := (List.mem_filter.mp hi).2
  simpa using h2

/-- C5: for a fixed confidence matrix, class column, precision and
offset, raising the threshold never increases the number of emitted
detections: for thresholds `t1 ≤ t2` the extractor emits at most as
many detections at `t2` as at `t1` (and emitting zero detections is an
ordinary return value of `print_timestamps`, not an error). -/
theorem claim_C5 (fw : List (List ℚ)) (precision : Nat) (focus_idx : Nat) (offset : ℚ)
    (t1 t2 : Int) (h : t1 ≤ t2) :
    (print_timestamps fw precision t2 focus_idx offset).length ≤
      (print_timestamps fw precision t1 focus_idx offset).length := by
  rw [print_timestamps_length_eq, print_timestamps_length_eq]
  apply filter_length_mono
  intro a _ h2
  simp only [decide_eq_true_eq] at h2 ⊢
  have hc : (t1 : ℚ) ≤ (t2 : ℚ) := by exact_mod_cast h
  linarith

/-- Witness for C5 at the one-frame matrix `[[1]]` and thresholds
`0 ≤ 50`. -/
theorem claim_C5_witness :
    ((0 : Int) ≤ 50) ∧
    (print_timestamps [[1]] 1 50 0 0).length ≤ (print_timestamps [[1]] 1 0 0 0).length :=
  ⟨by decide, claim_C5 [[1]] 1 0 0 0 50 (by decide)⟩

/-! ### Claim C7 (identifier stability) -/

theorem isPrefixOf_append_self (l t : List Char) : l.isPrefixOf (l ++ t) = true := by
  induction l with
  | nil => simp [List.isPrefixOf]
  | cons c rest ih => simp [List.isPrefixOf, ih]

theorem replaceAll_of_not_contains (pat repl : List Char) :
    ∀ l, containsSeq pat l = false → replaceAll pat repl l = l := by
  intro l
  induction l with
  | nil => intro _; simp [replaceAll]
  | cons c rest ih =>
    intro h
    simp only [containsSeq, Bool.or_eq_false_iff] at h
    obtain ⟨h1, h2⟩ := h
    simp only [replaceAll]
    rw [h1]
    simp [ih h2]

theorem splitOnSeq_ne_nil (sep : List Char) : ∀ l, splitOnSeq sep l ≠ [] := by
  intro l
  induction l with
  | nil => simp [splitOnSeq]
  | cons c rest ih =>
    simp only [splitOnSeq]
    by_cases hc : (sep.isPrefixOf (c :: rest) && !sep.isEmpty) = true
    · rw [if_pos hc]
      simp
    · rw [if_neg hc]
      cases hsp : splitOnSeq sep rest with
      | nil => simp
      | cons p ps => simp

theorem splitOnSeq_of_not_contains (sep : List Char) :
    ∀ l, containsSeq sep l = false → splitOnSeq sep l = [l] := by
  intro l
  induction l with
  | nil => intro _; simp [splitOnSeq]
  | cons c rest ih =>
    intro h
    simp only [containsSeq, Bool.or_eq_false_iff] at h
    obtain ⟨h1, h2⟩ := h
    simp only [splitOnSeq]
    rw [h1]
    simp only [Bool.false_and, Bool.false_eq_true, if_false]
    rw [ih h2]

theorem replaceAll_append_of_no_match (pat repl : List Char) :
    ∀ (a t : List Char), startsMatchIn pat a t = false →
      replaceAll pat repl (a ++ t) = a ++ replaceAll pat repl t := by
  intro a
  induction a with
  | nil => intro t _; simp
  | cons c rest ih =>
    intro t h
    simp only [startsMatchIn, Bool.or_eq_false_iff] at h
    obtain ⟨h1, h2⟩ := h
    simp only [List.cons_append]
    simp only [replaceAll]
    rw [List.cons_append] at h1
    rw [h1]
    simp [ih t h2]

theorem replaceAll_left (pat repl t : List Char) (c : Char) (ps : List Char)
    (hpat : pat = c :: ps) :
    replaceAll pat repl (pat ++ t) = repl ++ replaceAll pat repl t := by
  subst hpat
  have hpre := isPrefixOf_append_self (c :: ps) t
  rw [List.cons_append] at hpre
  simp only [List.cons_append]
  simp only [replaceAll]
  rw [hpre]
  simp only [List.isEmpty_cons, Bool.not_false, Bool.and_true, if_true]
  congr 1
  have hlen : (c :: ps).length - 1 = ps.length := by simp
  rw [hlen, List.drop_left]

theorem splitOnSeq_append_of_no_match (sep : List Char) :
    ∀ (a t : List Char), startsMatchIn sep a t = false →
      splitOnSeq sep (a ++ t) =
        (a ++ (splitOnSeq sep t).headD []) :: (splitOnSeq sep t).tail := by
  intro a
  induction a with
  | nil =>
    intro t _
    simp only [List.nil_append]
    cases hsp : splitOnSeq sep t with
    | nil => exact absurd hsp (splitOnSeq_ne_nil sep t)
    | cons p ps => simp
  | cons c rest ih =>
    intro t h
    simp only [startsMatchIn, Bool.or_eq_false_iff] at h
    obtain ⟨h1, h2⟩ := h
    simp only [List.cons_append]
    simp only [splitOnSeq]
    rw [List.cons_append] at h1
    rw [h1]
    simp only [Bool.false_and, Bool.false_eq_true, if_false]
    rw [ih t h2]

theorem splitOnSeq_left (sep t : List Char) (c : Char) (ps : List Char)
    (hsep : sep = c :: ps) :
    splitOnSeq sep (sep ++ t) = [] :: splitOnSeq sep t := by
  subst hsep
  have hpre := isPrefixOf_append_self (c :: ps) t
  rw [List.cons_append] at hpre
  simp only [List.cons_append]
  simp only [splitOnSeq]
  rw [hpre]
  simp only [List.isEmpty_cons, Bool.not_false, Bool.and_true, if_true]
  congr 1
  have hlen : (c :: ps).length - 1 = ps.length := by simp
  rw [hlen, List.drop_left]

theorem split_watch_last (v : List Char) (hw : containsSeq watchSep v = false) :
    (splitOnSeq watchSep (ytPre ++ (watchRepl ++ v))).getLastD [] = v := by
  have hassoc : ytPre ++ (watchRepl ++ v) = (ytPre ++ ['/']) ++ (watchSep ++ v) := by
    simp [ytPre, watchRepl, watchSep]
  rw [hassoc]
  rw [splitOnSeq_append_of_no_match watchSep (ytPre ++ ['/']) (watchSep ++ v)
      (by simp [ytPre, watchSep, startsMatchIn, List.isPrefixOf])]
  rw [splitOnSeq_left watchSep v 'w' ['a', 't', 'c', 'h', '?', 'v', '='] rfl]
  rw [splitOnSeq_of_not_contains _ _ hw]
  simp

theorem extractVideoId_watchURL (v : List Char) (hs : containsSeq shortsPat v = false)
    (hw : containsSeq watchSep v = false) :
    extractVideoId (watchURL v) = v := by
  unfold extractVideoId watchURL
  rw [replaceAll_append_of_no_match shortsPat watchRepl (ytPre ++ watchRepl) v
      (by simp [ytPre, watchRepl, shortsPat, startsMatchIn, List.isPrefixOf])]
  rw [replaceAll_of_not_contains _ _ _ hs]
  rw [List.append_assoc]
  exact split_watch_last v hw

theorem extractVideoId_shortsURL (v : List Char) (hs : containsSeq shortsPat v = false)
    (hw : containsSeq watchSep v = false) :
    extractVideoId (shortsURL v) = v := by
  unfold extractVideoId shortsURL
  rw [List.append_assoc]
  rw [replaceAll_append_of_no_match shortsPat watchRepl ytPre (shortsPat ++ v)
      (by simp [ytPre, shortsPat, startsMatchIn, List.isPrefixOf])]
  rw [replaceAll_left shortsPat watchRepl v '/' ['s', 'h', 'o', 'r', 't', 's', '/'] rfl]
  rw [replaceAll_of_not_contains _ _ _ hs]
  exact split_watch_last v hw

theorem extractVideoId_of_no_patterns (l : List Char)
    (h1 : containsSeq shortsPat l = false) (h2 : containsSeq watchSep l = false) :
    extractVideoId l = l := by
  unfold extractVideoId
  rw [replaceAll_of_not_contains _ _ _ h1, splitOnSeq_of_not_contains _ _ h2]
  rfl

/-- C7 counterexample: the claim says a youtu.be short link and its
`youtube.com/watch?v=` form derive the same identifier, but the code
only normalizes `/shorts/` paths: for `https://youtu.be/abc123` the
split on `"watch?v="` finds no separator and returns the whole URL as
the identifier, which differs from the identifier `abc123` derived from
`https://www.youtube.com/watch?v=abc123`. -/
theorem claim_C7_counterexample :
    extractVideoId ytbeExample ≠
      extractVideoId (watchURL ['a', 'b', 'c', '1', '2', '3']) := by
  rw [extractVideoId_of_no_patterns ytbeExample (by decide) (by decide),
    extractVideoId_watchURL ['a', 'b', 'c', '1', '2', '3'] (by decide) (by decide)]
  decide

/-- C7 (amended): for every video id `v` containing no occurrence of
`"/shorts/"` or `"watch?v="`, the `/shorts/` path form and the
`/watch?v=` form of the same item both resolve to the identifier `v`;
youtu.be short links, however, are not normalized and resolve to the
whole URL instead. -/
theorem claim_C7 (v : List Char) (hs : containsSeq shortsPat v = false)
    (hw : containsSeq watchSep v = false) :
    extractVideoId (shortsURL v) = v ∧ extractVideoId (watchURL v) = v :=
  ⟨extractVideoId_shortsURL v hs hw, extractVideoId_watchURL v hs hw⟩

/-- Witness for C7 at the video id `dQw4`. -/
theorem claim_C7_witness :
    (containsSeq shortsPat ['d', 'Q', 'w', '4'] = false ∧
     containsSeq watchSep ['d', 'Q', 'w', '4'] = false) ∧
    (extractVideoId (shortsURL ['d', 'Q', 'w', '4']) = ['d', 'Q', 'w', '4'] ∧
     extractVideoId (watchURL ['d', 'Q', 'w', '4']) = ['d', 'Q', 'w', '4']) :=
  ⟨⟨by decide, by decide⟩, claim_C7 ['d', 'Q', 'w', '4'] (by decide) (by decide)⟩
